import Mathlib

/-!
Verification development for the DLWP-CS forecast-rollout and grid-remapping
pipeline (tutorial notebook "4 - Predicting with a DLWP-CS model.ipynb" and the
spec of the surrounding DLWP library components it calls).

The library components themselves (SeriesDataGenerator, TimeSeriesEstimator,
CubeSphereRemap, the inverse scaler, the metadata reformatter) live outside the
provided sources, so they are modelled from the spec; the notebook's own lines
(the channels-last transpose, the forecast-hour label construction, the
inverse-scaling arithmetic) are embedded directly.
-/

namespace DLWP

/-! ## AutoregressiveEstimator (TimeSeriesEstimator)

Modelled from the spec: the estimator drives a Predictor repeatedly; the
Predictor maps the current input window (a list of snapshots) and the current
time index (which determines the recomputed insolation channels) to `To`
predicted snapshots.  A single-step semantics `f : List alpha -> Nat -> alpha`
gives, by internal unrolling, the native multi-step Predictor with any `To`. -/

variable {α : Type}

/-- Modelled from the spec (4.2 step 2c): form the next input window by
dropping the oldest `To` steps of the current input and appending the
just-predicted `To` steps. -/
def slide (w : List α) (ys : List α) : List α :=
  (w.drop ys.length) ++ ys

/-- The step-by-step trajectory of a single-step predictor core `f`:
`n` successive predictions starting from window `w` at time `t`, each step
sliding the window forward by one and advancing the time (so any purely
time-derived feature such as insolation is recomputed for the new, synthetic
future timestamp). -/
def trajectory (f : List α → Nat → α) : Nat → List α → Nat → List α
  | 0, _, _ => []
  | n + 1, w, t => f w t :: trajectory f n (w.drop 1 ++ [f w t]) (t + 1)

/-- The window obtained after `n` single steps of the feedback loop. -/
def advanceWindow (f : List α → Nat → α) : Nat → List α → Nat → List α
  | 0, w, _ => w
  | n + 1, w, t => advanceWindow f n (w.drop 1 ++ [f w t]) (t + 1)

/-- Modelled from the spec (4.2 step 2d): a Predictor that natively supports
multi-step rollout returns `To` steps per call, functionally equivalent to
step-by-step feedback — its `To` outputs are the `To`-fold unroll of the
single-step semantics. -/
def multiStep (f : List α → Nat → α) (To : Nat) (w : List α) (t : Nat) :
    List α :=
  trajectory f To w t

/-- Modelled from the spec (4.2 step 2): the estimator's driving loop.  Each
iteration invokes the Predictor `p` once, appends the predicted snapshots to
the output accumulator, slides the window forward by the number of returned
steps and advances the time accordingly.  `n` is the number of Predictor
calls. -/
def estimatorCalls (p : List α → Nat → List α) :
    Nat → List α → Nat → List α
  | 0, _, _ => []
  | n + 1, w, t =>
      p w t ++ estimatorCalls p n (slide w (p w t)) (t + (p w t).length)

/-- Number of Predictor calls needed to cover `K` lead times with `To` steps
per call (the ceiling of `K / To`). -/
def numCalls (K To : Nat) : Nat :=
  (K + To - 1) / To

/-- Modelled from the spec (4.2): `TimeSeriesEstimator.predict` for one
initialization — repeat Predictor calls until at least `K` lead-time slabs are
produced, then truncate to exactly `K`. -/
def estimatorPredict (p : List α → Nat → List α) (To K : Nat)
    (w : List α) (t : Nat) : List α :=
  (estimatorCalls p (numCalls K To) w t).take K

theorem trajectory_length (f : List α → Nat → α) :
    ∀ (n : Nat) (w : List α) (t : Nat), (trajectory f n w t).length = n := by
  intro n
  induction n with
  | zero => intro w t; rfl
  | succ m ih => intro w t; simp [trajectory, ih]

theorem trajectory_add (f : List α → Nat → α) :
    ∀ (m n : Nat) (w : List α) (t : Nat),
      trajectory f (m + n) w t =
        trajectory f m w t ++ trajectory f n (advanceWindow f m w t) (t + m) := by
  intro m
  induction m with
  | zero => intro n w t; simp [trajectory, advanceWindow]
  | succ k ih =>
      intro n w t
      have : k + 1 + n = (k + n) + 1 := by omega
      rw [this]
      simp only [trajectory, advanceWindow, ih]
      have : t + 1 + k = t + (k + 1) := by omega
      rw [this, List.cons_append]

theorem advanceWindow_eq (f : List α → Nat → α) :
    ∀ (n : Nat) (w : List α) (t : Nat), n ≤ w.length →
      advanceWindow f n w t = w.drop n ++ trajectory f n w t := by
  intro n
  induction n with
  | zero => intro w t _; simp [advanceWindow, trajectory]
  | succ k ih =>
      intro w t h
      simp only [advanceWindow, trajectory]
      rw [ih (w.drop 1 ++ [f w t]) (t + 1) (by simp; omega)]
      rw [List.drop_append_eq_append_drop]
      have h1 : k ≤ (w.drop 1).length := by simp; omega
      have h2 : k - (w.drop 1).length = 0 := by omega
      rw [h2]
      simp only [List.drop_drop, List.drop_zero]
      have h3 : 1 + k = k + 1 := by omega
      rw [h3, List.append_assoc, List.singleton_append]

theorem advanceWindow_length (f : List α → Nat → α) :
    ∀ (n : Nat) (w : List α) (t : Nat), n ≤ w.length →
      (advanceWindow f n w t).length = w.length := by
  intro n w t h
  rw [advanceWindow_eq f n w t h]
  simp [trajectory_length]
  omega

/-- The estimator loop driving the `To`-step native predictor for `n` calls
produces exactly the `n * To`-step single-step trajectory. -/
theorem estimatorCalls_multiStep (f : List α → Nat → α) (To : Nat) :
    ∀ (n : Nat) (w : List α) (t : Nat), To ≤ w.length →
      estimatorCalls (multiStep f To) n w t = trajectory f (n * To) w t := by
  intro n
  induction n with
  | zero => intro w t _; simp [estimatorCalls, trajectory]
  | succ k ih =>
      intro w t hw
      simp only [estimatorCalls]
      have hlen : (multiStep f To w t).length = To := trajectory_length f To w t
      have hslide : slide w (multiStep f To w t) = advanceWindow f To w t := by
        rw [slide, hlen, multiStep, ← advanceWindow_eq f To w t hw]
      rw [hslide, hlen]
      have hwin : To ≤ (advanceWindow f To w t).length := by
        rw [advanceWindow_length f To w t hw]; exact hw
      rw [ih (advanceWindow f To w t) (t + To) hwin]
      have hk : (k + 1) * To = To + k * To := by ring
      rw [hk, trajectory_add f To (k * To) w t]
      rfl

theorem trajectory_take (f : List α → Nat → α) (K n : Nat) (hK : K ≤ n)
    (w : List α) (t : Nat) :
    (trajectory f n w t).take K = trajectory f K w t := by
  have h : n = K + (n - K) := by omega
  rw [h, trajectory_add f K (n - K) w t, List.take_append_eq_append_take]
  rw [trajectory_length]
  simp [trajectory_length]

/-- C1: for every requested forecast length `K ≥ 1` and every initialization
(any input window `w` and initialization time `t`), `estimatorPredict K`
returns a forecast whose lead-time axis has exactly `K` entries, both when the
Predictor returns one step per call (`To = 1`, feedback loop) and when it
natively returns `K` steps per call (`supports_n_steps`, `To = K`); moreover
the feedback-loop and native multi-step paths produce equal forecasts. -/
theorem estimator_predict_feedback_native_equiv (f : List α → Nat → α)
    (K : Nat) (w : List α) (t : Nat) (hK : 1 ≤ K) (hw : 1 ≤ w.length) :
    (estimatorPredict (multiStep f 1) 1 K w t).length = K ∧
    (estimatorPredict (multiStep f K) K K w t).length = K ∧
    estimatorPredict (multiStep f 1) 1 K w t =
      estimatorPredict (multiStep f K) K K w t := by
  have hcalls1 : numCalls K 1 = K := by simp [numCalls]
  have hfeed : estimatorPredict (multiStep f 1) 1 K w t = trajectory f K w t := by
    rw [estimatorPredict, hcalls1, estimatorCalls_multiStep f 1 K w t hw]
    rw [Nat.mul_one, trajectory_take f K K (le_refl K)]
  have hcallsK : numCalls K K = 1 := by
    rw [numCalls]
    exact Nat.div_eq_of_lt_le (by omega) (by omega)
  have hnat : estimatorPredict (multiStep f K) K K w t = trajectory f K w t := by
    rw [estimatorPredict, hcallsK]
    simp only [estimatorCalls, List.append_nil]
    rw [multiStep, trajectory_take f K K (le_refl K)]
  refine ⟨?_, ?_, ?_⟩
  · rw [hfeed, trajectory_length]
  · rw [hnat, trajectory_length]
  · rw [hfeed, hnat]

/-- A concrete single-step predictor core used to witness the estimator
theorems. -/
def demoStep (w : List Int) (t : Nat) : Int :=
  w.headD 0 + t

/-- Witness for C1 at a concrete predictor, window and horizon. -/
theorem estimator_predict_feedback_native_equiv_witness :
    (estimatorPredict (multiStep demoStep 1) 1 3 [5, 7] 2).length = 3 ∧
    (estimatorPredict (multiStep demoStep 3) 3 3 [5, 7] 2).length = 3 ∧
    estimatorPredict (multiStep demoStep 1) 1 3 [5, 7] 2 =
      estimatorPredict (multiStep demoStep 3) 3 3 [5, 7] 2 :=
  estimator_predict_feedback_native_equiv demoStep 3 [5, 7] 2 (by decide)
    (by decide)

/-! ## WindowedSeriesGenerator: initial input window fetch

Modelled from the spec (4.1, 4.2 step 1 and the edge-case policy): for an
initialization at series position `initPos` the estimator fetches the `Ti`
snapshots ending at, and including, the initialization position, reading each
required series position individually; reading a position before the series
start is the `IndexError`-class condition the spec calls
`InsufficientHistoryError`. -/

inductive GeneratorError
  | insufficientHistory
  | outOfRange
  deriving DecidableEq, Repr

/-- Modelled from the spec: read one snapshot at (possibly negative) series
position `i`; positions before the series start fail with
`InsufficientHistoryError`. -/
def getSnapshot (series : List α) (i : Int) : Except GeneratorError α :=
  if i < 0 then .error .insufficientHistory
  else if h : i.toNat < series.length then .ok (series.get ⟨i.toNat, h⟩)
  else .error .outOfRange

/-- Read a list of series positions in order, propagating the first error. -/
def fetchFrom (series : List α) : List Int → Except GeneratorError (List α)
  | [] => .ok []
  | i :: is =>
      match getSnapshot series i with
      | .error e => .error e
      | .ok x =>
          match fetchFrom series is with
          | .error e => .error e
          | .ok xs => .ok (x :: xs)

/-- The `Ti` series positions of the input window for an initialization at
position `initPos`: `initPos - Ti + 1, …, initPos`. -/
def windowIndices (Ti initPos : Nat) : List Int :=
  (List.range Ti).map (fun (j : Nat) => (initPos : Int) - Ti + 1 + j)

/-- Modelled from the spec (4.2 step 1): fetch the initial input window, the
`Ti` snapshots immediately preceding — inclusive of — the initialization. -/
def fetchInputWindow (series : List α) (Ti initPos : Nat) :
    Except GeneratorError (List α) :=
  fetchFrom series (windowIndices Ti initPos)

/-- C3: whenever the required input window would begin before the first
snapshot (`initPos - Ti + 1 < 0`), the fetch fails fast with
`InsufficientHistoryError`; it never returns a silently truncated window. -/
theorem fetchInputWindow_insufficient_history (series : List α)
    (Ti initPos : Nat) (h : (initPos : Int) - Ti + 1 < 0) :
    fetchInputWindow series Ti initPos =
      .error GeneratorError.insufficientHistory := by
  obtain ⟨m, rfl⟩ : ∃ m, Ti = m + 1 := ⟨Ti - 1, by omega⟩
  simp only [fetchInputWindow, windowIndices, List.range_succ_eq_map,
    List.map_cons, fetchFrom, getSnapshot]
  rw [if_pos]
  push_cast
  push_cast at h
  omega

/-- Witness for C3: a window of 5 snapshots requested at position 1 of a
3-snapshot series reaches before the series start. -/
theorem fetchInputWindow_insufficient_history_witness :
    ((1 : Nat) : Int) - (5 : Nat) + 1 < 0 ∧
    fetchInputWindow ([10, 20, 30] : List Int) 5 1 =
      .error GeneratorError.insufficientHistory :=
  ⟨by decide,
   fetchInputWindow_insufficient_history [10, 20, 30] 5 1 (by decide)⟩

theorem fetchFrom_cons (series : List α) (i : Int) (is : List Int) :
    fetchFrom series (i :: is) =
      match getSnapshot series i with
      | .error e => .error e
      | .ok x =>
          match fetchFrom series is with
          | .error e => .error e
          | .ok xs => .ok (x :: xs) := rfl

theorem fetchFrom_consecutive (series : List α) :
    ∀ (n s : Nat), s + n ≤ series.length →
      fetchFrom series ((List.range n).map (fun (j : Nat) => (s : Int) + j)) =
        .ok ((series.drop s).take n) := by
  intro n
  induction n with
  | zero => intro s h; simp [fetchFrom]
  | succ m ih =>
      intro s h
      rw [List.range_succ_eq_map]
      simp only [List.map_cons, List.map_map, Nat.cast_zero, add_zero]
      have hmap : (List.range m).map ((fun j => (s : Int) + ↑j) ∘ Nat.succ) =
          (List.range m).map (fun j => ((s + 1 : Nat) : Int) + ↑j) := by
        apply List.map_congr_left
        intro j _
        simp only [Function.comp_apply]
        push_cast
        ring
      have hs : s < series.length := by omega
      have hget : getSnapshot series ((s : Nat) : Int) =
          .ok (series.get ⟨s, hs⟩) := by
        simp only [getSnapshot, Int.toNat_ofNat]
        rw [if_neg (by omega), dif_pos hs]
      rw [hmap, fetchFrom_cons, hget, ih (s + 1) (by omega)]
      have hdt : (series.drop s).take (m + 1) =
          series.get ⟨s, hs⟩ :: (series.drop (s + 1)).take m := by
        simp only [List.get_eq_getElem]
        rw [List.drop_eq_getElem_cons hs, List.take_succ_cons]
      rw [hdt]

/-- C4: for every initialization at series position `initPos` with at least
`Ti - 1` earlier snapshots, the fetched initial input window is exactly the
`Ti` consecutive snapshots starting at position `initPos - Ti + 1` and ending
at, and including, the initialization position: it succeeds, has length `Ti`,
and its `j`-th entry is the series entry at position `initPos + 1 - Ti + j`. -/
theorem fetchInputWindow_ok (series : List α) (Ti initPos : Nat)
    (h1 : Ti ≤ initPos + 1) (h2 : initPos < series.length) :
    fetchInputWindow series Ti initPos =
      .ok ((series.drop (initPos + 1 - Ti)).take Ti) ∧
    ((series.drop (initPos + 1 - Ti)).take Ti).length = Ti ∧
    ∀ j, j < Ti →
      ((series.drop (initPos + 1 - Ti)).take Ti)[j]? =
        series[initPos + 1 - Ti + j]? := by
  refine ⟨?_, ?_, ?_⟩
  · rw [fetchInputWindow, windowIndices]
    have hmap : (List.range Ti).map
          (fun (j : Nat) => (initPos : Int) - Ti + 1 + j) =
        (List.range Ti).map
          (fun (j : Nat) => ((initPos + 1 - Ti : Nat) : Int) + j) := by
      apply List.map_congr_left
      intro j _
      omega
    rw [hmap, fetchFrom_consecutive series Ti (initPos + 1 - Ti) (by omega)]
  · simp only [List.length_take, List.length_drop]
    omega
  · intro j hj
    rw [List.getElem?_take_of_lt hj, List.getElem?_drop]

/-- Witness for C4: a 2-snapshot window at position 2 of a 4-snapshot series. -/
theorem fetchInputWindow_ok_witness :
    fetchInputWindow ([10, 20, 30, 40] : List Int) 2 2 =
      .ok ((([10, 20, 30, 40] : List Int).drop (2 + 1 - 2)).take 2) ∧
    ((([10, 20, 30, 40] : List Int).drop (2 + 1 - 2)).take 2).length = 2 ∧
    ∀ j, j < 2 →
      ((([10, 20, 30, 40] : List Int).drop (2 + 1 - 2)).take 2)[j]? =
        ([10, 20, 30, 40] : List Int)[2 + 1 - 2 + j]? :=
  fetchInputWindow_ok [10, 20, 30, 40] 2 2 (by decide) (by decide)

/-! ## InverseScaler

Embedding of notebook cell 19 (`sel_mean = scale_ds['mean'].sel(...)`,
`sel_std = scale_ds['std'].sel(...)`, `time_series = time_series * sel_std +
sel_mean`) together with the spec's InverseScaler contract (4.3): the scale
dataset is an association list from variable/level name to its (mean, std)
pair, the forecast tensor is indexed by variable/level name and a flattened
index over all remaining axes, and a selected name with no scale entry is the
`MissingScaleParameterError` condition raised before any output exists. -/

inductive ScaleError
  | missingScaleParameter
  deriving DecidableEq, Repr

/-- Modelled from the spec (4.3): inverse scaling; checks that every selected
variable/level has a (mean, std) entry, then transforms each selected slice as
`value * std + mean`.  Pure: the input tensor `ts` is untouched. -/
def inverseScale (scaleDS : List (String × ℚ × ℚ)) (sel : List String)
    (ts : String → Nat → ℚ) : Except ScaleError (String → Nat → ℚ) :=
  if ∀ v ∈ sel, (scaleDS.lookup v).isSome then
    .ok (fun v i =>
      match scaleDS.lookup v with
      | some ms => ts v i * ms.2 + ms.1
      | none => ts v i)
  else .error .missingScaleParameter

/-- C2: when every selected variable/level has scale parameters, inverse
scaling succeeds and the slice of any selected variable/level with parameters
`(m, s)` equals `value * s + m` elementwise; the input tensor is a pure
function argument and is not mutated. -/
theorem inverseScale_slice (scaleDS : List (String × ℚ × ℚ))
    (sel : List String) (ts : String → Nat → ℚ) (v : String) (m s : ℚ)
    (hall : ∀ u ∈ sel, (scaleDS.lookup u).isSome)
    (hv : scaleDS.lookup v = some (m, s)) :
    ∃ out, inverseScale scaleDS sel ts = .ok out ∧
      ∀ i, out v i = ts v i * s + m := by
  rw [inverseScale, if_pos hall]
  refine ⟨_, rfl, fun i => ?_⟩
  simp only [hv]

/-- Witness for C2 at a concrete scale dataset, selection and tensor. -/
theorem inverseScale_slice_witness :
    ∃ out,
      inverseScale [("z/500", 2, 3), ("t2m/0", 5, 7)] ["z/500", "t2m/0"]
        (fun _ _ => (4 : ℚ)) = .ok out ∧
      ∀ i, out "t2m/0" i = (fun _ _ => (4 : ℚ)) "t2m/0" i * 7 + 5 :=
  inverseScale_slice [("z/500", 2, 3), ("t2m/0", 5, 7)] ["z/500", "t2m/0"]
    (fun _ _ => (4 : ℚ)) "t2m/0" 5 7 (by decide) (by decide)

/-- C6: if the scale dataset lacks a (mean, std) entry for some selected
variable/level, inverse scaling fails with `MissingScaleParameterError` and
produces no output tensor. -/
theorem inverseScale_missing (scaleDS : List (String × ℚ × ℚ))
    (sel : List String) (ts : String → Nat → ℚ) (v : String)
    (hv : v ∈ sel) (hmiss : scaleDS.lookup v = none) :
    inverseScale scaleDS sel ts = .error ScaleError.missingScaleParameter := by
  rw [inverseScale, if_neg]
  intro hall
  have hsome := hall v hv
  rw [hmiss] at hsome
  simp at hsome

/-- Witness for C6: `t2m/0` selected but absent from the scale dataset. -/
theorem inverseScale_missing_witness :
    "t2m/0" ∈ ["z/500", "t2m/0"] ∧
    inverseScale [("z/500", 2, 3)] ["z/500", "t2m/0"] (fun _ _ => (4 : ℚ)) =
      .error ScaleError.missingScaleParameter :=
  ⟨by decide,
   inverseScale_missing [("z/500", 2, 3)] ["z/500", "t2m/0"]
     (fun _ _ => (4 : ℚ)) "t2m/0" (by decide) (by decide)⟩

/-! ## CubeSphereRemap

Modelled from the spec (4.5): a two-state machine (Unconfigured/Configured).
`assign_maps` loads the forward and inverse RemapWeights; `inverse_remap`
applies the cubed-sphere→lat/lon weights as a sparse linear operator against
the flattened source field (the notebook's selected `forecast` variable) and
requires the Configured state. -/

/-- Sparse remap weights: for each target cell, the list of (source cell,
weight) contributions. -/
structure RemapWeights where
  weights : Nat → List (Nat × ℚ)

inductive RemapError
  | notConfigured
  deriving DecidableEq, Repr

/-- Remapper state: `maps = none` is Unconfigured, `maps = some _` holds the
(lat/lon→cubed-sphere, cubed-sphere→lat/lon) weight pair. -/
structure CubeSphereRemap where
  maps : Option (RemapWeights × RemapWeights)

/-- A freshly constructed remapper, before any `assign_maps` call. -/
def CubeSphereRemap.new : CubeSphereRemap :=
  ⟨none⟩

/-- Modelled from the spec (4.5): load the two weight files, transitioning
Unconfigured → Configured. -/
def CubeSphereRemap.assign_maps (_csr : CubeSphereRemap)
    (forwardMap inverseMap : RemapWeights) : CubeSphereRemap :=
  ⟨some (forwardMap, inverseMap)⟩

/-- Weighted linear combination: `target_cell = Σ weight_i * source_cell_i`. -/
def applyWeights (w : RemapWeights) (src : Nat → ℚ) (tgt : Nat) : ℚ :=
  ((w.weights tgt).map (fun p => p.2 * src p.1)).sum

/-- Modelled from the spec (4.5): apply the cubed-sphere→lat/lon weights to
the source field; fails with `NotConfiguredError` before `assign_maps`. -/
def CubeSphereRemap.inverse_remap (csr : CubeSphereRemap) (src : Nat → ℚ) :
    Except RemapError (Nat → ℚ) :=
  match csr.maps with
  | none => .error .notConfigured
  | some maps => .ok (applyWeights maps.2 src)

/-- C5: `inverse_remap` on a remapper on which `assign_maps` was never called
fails with `NotConfiguredError`; once `assign_maps` has succeeded it is
permitted (returns a result). -/
theorem inverse_remap_state_machine (src : Nat → ℚ)
    (forwardMap inverseMap : RemapWeights) :
    CubeSphereRemap.new.inverse_remap src = .error RemapError.notConfigured ∧
    ∃ out, (CubeSphereRemap.new.assign_maps forwardMap inverseMap).inverse_remap
        src = .ok out :=
  ⟨rfl, ⟨applyWeights inverseMap src, rfl⟩⟩

/-- C7: each output cell of `inverse_remap` is the weighted linear combination
`Σ weight_i * source_cell_i` of the source cells, and when the loaded inverse
weights sum to 1 for every target cell, a spatially constant field `c` is
mapped to that same constant on every target cell. -/
theorem inverse_remap_weights (forwardMap inverseMap : RemapWeights)
    (src : Nat → ℚ) (c : ℚ)
    (hsum : ∀ t, ((inverseMap.weights t).map Prod.snd).sum = 1) :
    (∃ out, (CubeSphereRemap.new.assign_maps forwardMap
          inverseMap).inverse_remap src = .ok out ∧
        ∀ t, out t =
          ((inverseMap.weights t).map (fun p => p.2 * src p.1)).sum) ∧
    (∃ outc, (CubeSphereRemap.new.assign_maps forwardMap
          inverseMap).inverse_remap (fun _ => c) = .ok outc ∧
        ∀ t, outc t = c) := by
  constructor
  · exact ⟨_, rfl, fun t => rfl⟩
  · refine ⟨_, rfl, fun t => ?_⟩
    show ((inverseMap.weights t).map
        (fun p => p.2 * (fun _ => c) p.1)).sum = c
    have hmr : ((inverseMap.weights t).map (fun p => p.2 * c)).sum =
        ((inverseMap.weights t).map Prod.snd).sum * c :=
      List.sum_map_mul_right (inverseMap.weights t) Prod.snd c
    calc ((inverseMap.weights t).map (fun p => p.2 * (fun _ => c) p.1)).sum
        = ((inverseMap.weights t).map Prod.snd).sum * c := hmr
      _ = 1 * c := by rw [hsum t]
      _ = c := one_mul c

/-- Concrete inverse weights whose rows sum to 1, for the C7 witness. -/
def demoWeights : RemapWeights :=
  ⟨fun t => [(t, (1 : ℚ) / 2), (t + 1, 1 / 2)]⟩

/-- Witness for C7 with concrete weights, source field and constant. -/
theorem inverse_remap_weights_witness :
    (∃ out, (CubeSphereRemap.new.assign_maps demoWeights
          demoWeights).inverse_remap (fun i => (i : ℚ)) = .ok out ∧
        ∀ t, out t =
          ((demoWeights.weights t).map
            (fun p => p.2 * ((fun i => (i : ℚ)) p.1))).sum) ∧
    (∃ outc, (CubeSphereRemap.new.assign_maps demoWeights
          demoWeights).inverse_remap (fun _ => (5 : ℚ)) = .ok outc ∧
        ∀ t, outc t = 5) :=
  inverse_remap_weights demoWeights demoWeights (fun i => (i : ℚ)) 5
    (fun t => by norm_num [demoWeights])

/-! ## SeriesDataGenerator: the appended insolation channel

Modelled from the spec (4.1, 8): with `add_insolation` enabled the generator
appends, per input timestep, one extra channel computed purely from
(timestamp, grid cell coordinates) — the insolation function `insol` is a
parameter depending on nothing else — so its values are independent of every
dynamical variable and can be recomputed identically for synthetic future
timestamps during rollout.  A timestep is a pair of a dynamical snapshot and
its timestamp; the appended channel maps the grid cells under `insol` at that
timestamp. -/

variable {σ τ : Type}

/-- Modelled from the spec (4.1): append the insolation channel to each input
timestep of a window.  `snaps` are the dynamical snapshots, `times` their
timestamps, `grid` the fixed grid cell coordinates. -/
def appendInsolation (insol : Nat → Nat → ℚ) (grid : List Nat)
    (snaps : List σ) (times : List Nat) : List (σ × List ℚ) :=
  (snaps.zip times).map (fun p => (p.1, grid.map (insol p.2)))

theorem appendInsolation_snd (insol : Nat → Nat → ℚ) (grid : List Nat) :
    ∀ (snaps : List σ) (times : List Nat),
      (appendInsolation insol grid snaps times).map Prod.snd =
        (times.take snaps.length).map (fun t => grid.map (insol t)) := by
  intro snaps
  induction snaps with
  | nil => intro times; simp [appendInsolation]
  | cons a as ih =>
      intro times
      cases times with
      | nil => simp [appendInsolation]
      | cons t ts =>
          have htail := ih ts
          simp only [appendInsolation, List.zip_cons_cons, List.map_cons,
            List.length_cons, List.take_succ_cons]
          rw [appendInsolation] at htail
          rw [htail]

/-- C8: the appended insolation channel is a pure function of (timestamp, grid
cell coordinates): recomputing it for the same timestamps and grid yields
identical values, and the channel is independent of the dynamical snapshots —
two windows with the same timestamps but arbitrary (even differently typed)
dynamical contents carry the identical insolation channel. -/
theorem insolation_channel_pure (insol : Nat → Nat → ℚ) (grid : List Nat)
    (snaps1 : List σ) (snaps2 : List τ) (times : List Nat)
    (h : snaps1.length = snaps2.length) :
    appendInsolation insol grid snaps1 times =
      appendInsolation insol grid snaps1 times ∧
    (appendInsolation insol grid snaps1 times).map Prod.snd =
      (appendInsolation insol grid snaps2 times).map Prod.snd := by
  refine ⟨rfl, ?_⟩
  rw [appendInsolation_snd, appendInsolation_snd, h]

/-- Witness for C8: same timestamps, different dynamical contents. -/
theorem insolation_channel_pure_witness :
    appendInsolation (fun t c => (t : ℚ) + c) [0, 1] ([3, 4] : List Int)
        [6, 12] =
      appendInsolation (fun t c => (t : ℚ) + c) [0, 1] ([3, 4] : List Int)
        [6, 12] ∧
    (appendInsolation (fun t c => (t : ℚ) + c) [0, 1] ([3, 4] : List Int)
        [6, 12]).map Prod.snd =
      (appendInsolation (fun t c => (t : ℚ) + c) [0, 1]
        ([true, false] : List Bool) [6, 12]).map Prod.snd :=
  insolation_channel_pure (fun t c => (t : ℚ) + c) [0, 1] [3, 4]
    [true, false] [6, 12] (by decide)

/-! ## Forecast layout finalization (notebook cell 17)

Embedding of the notebook's channels-last handling: a labelled array carries
its dimension-name order and name-indexed values; `transpose` reorders the
dimension names (defined only when the target order is a permutation of the
current one, as in xarray); the notebook transposes the estimator output to
`(f_hour, time, varlev, x0, x1, x2)` exactly when the model is
channels-last. -/

/-- The dimension order required by the inverse-scaling, metadata and remap
stages. -/
def canonicalDims : List String :=
  ["f_hour", "time", "varlev", "x0", "x1", "x2"]

/-- Modelled from the spec (4.1, 6): the estimator output honors the model's
channel layout — varlev sits before the spatial dims for a channels-first
model and after them for a channels-last model. -/
def estimatorOutputDims (channelsLast : Bool) : List String :=
  if channelsLast then ["f_hour", "time", "x0", "x1", "x2", "varlev"]
  else canonicalDims

/-- A labelled forecast array: dimension-name order plus name-indexed
values. -/
structure DataArray where
  dims : List String
  vals : (String → Nat) → ℚ

/-- Reorder the dimensions to `target`; defined only when `target` is a
permutation of the current dimension order. -/
def DataArray.transpose (da : DataArray) (target : List String) :
    Option DataArray :=
  if da.dims.isPerm target then some ⟨target, da.vals⟩ else none

/-- Embedding of notebook cell 17: `if is_channels_last(dlwp): time_series =
time_series.transpose('f_hour', 'time', 'varlev', 'x0', 'x1', 'x2')`. -/
def finalizeLayout (channelsLast : Bool) (da : DataArray) : Option DataArray :=
  if channelsLast then da.transpose canonicalDims else some da

/-- C9: whatever the model's channel layout, the forecast array handed to the
downstream stages has dimension order `(f_hour, time, varlev, x0, x1, x2)`:
the channels-last output is explicitly transposed into this order and the
channels-first output already has it, with the values untouched. -/
theorem finalizeLayout_canonical (channelsLast : Bool) (da : DataArray)
    (h : da.dims = estimatorOutputDims channelsLast) :
    ∃ out, finalizeLayout channelsLast da = some out ∧
      out.dims = canonicalDims ∧ out.vals = da.vals := by
  cases channelsLast with
  | false => exact ⟨da, rfl, h, rfl⟩
  | true =>
      refine ⟨⟨canonicalDims, da.vals⟩, ?_, rfl, rfl⟩
      rw [finalizeLayout, if_pos rfl, DataArray.transpose, h]
      rw [if_pos (by decide)]

/-- Witness for C9 with a concrete channels-last array. -/
theorem finalizeLayout_canonical_witness :
    ∃ out,
      finalizeLayout true ⟨estimatorOutputDims true, fun _ => 0⟩ = some out ∧
      out.dims = canonicalDims ∧
      out.vals = (⟨estimatorOutputDims true, fun _ => 0⟩ : DataArray).vals :=
  finalizeLayout_canonical true ⟨estimatorOutputDims true, fun _ => 0⟩ rfl

/-! ## Forecast-hour labels and metadata reformatting (notebook cell 21) -/

/-- Embedding of `np.arange(start, stop, step)` for positive integer
arguments: the values `start + step * i` for `i < ⌈(stop - start) / step⌉`. -/
def arange (start stop step : Nat) : List Nat :=
  (List.range ((stop - start + step - 1) / step)).map
    (fun i => start + step * i)

/-- Embedding of notebook cell 21: `fh = np.arange(dt, time_series.shape[0] *
dt + 1., dt)` where `T` is the forecast tensor's lead-time axis length. -/
def forecastHours (T dt : Nat) : List Nat :=
  arange dt (T * dt + 1) dt

inductive MetadataError
  | dimensionMismatch
  deriving DecidableEq, Repr

/-- Modelled from the spec (4.4): `add_metadata_to_forecast_cs` rejects a
lead-time label sequence whose length differs from the tensor's lead-time
axis; on match it labels each lead-time slab with its forecast hour. -/
def add_metadata_to_forecast_cs {β : Type} (fhours : List Nat)
    (forecast : List β) : Except MetadataError (List (Nat × β)) :=
  if fhours.length = forecast.length then .ok (fhours.zip forecast)
  else .error .dimensionMismatch

/-- C10: the lead-time label sequence `arange(dt, T*dt + 1, dt)` has length
exactly `T` and values `dt, 2*dt, …, T*dt`, so the metadata reformatter's
mismatched-length rejection branch is unreachable on any forecast tensor with
lead-time axis length `T`. -/
theorem forecastHours_labels (T dt : Nat) (hdt : 1 ≤ dt) :
    (forecastHours T dt).length = T ∧
    (∀ i, i < T → (forecastHours T dt)[i]? = some (dt * (i + 1))) ∧
    ∀ {β : Type} (forecast : List β), forecast.length = T →
      ∃ labelled,
        add_metadata_to_forecast_cs (forecastHours T dt) forecast =
          .ok labelled := by
  have hcount : (T * dt + 1 - dt + dt - 1) / dt = T := by
    rcases Nat.eq_zero_or_pos T with hT | hT
    · subst hT
      apply Nat.div_eq_of_lt
      omega
    · have hdle : dt ≤ T * dt := Nat.le_mul_of_pos_left dt hT
      obtain ⟨m, hm⟩ : ∃ m, T * dt = m := ⟨T * dt, rfl⟩
      rw [hm] at hdle ⊢
      have hred : m + 1 - dt + dt - 1 = m := by omega
      rw [hred, ← hm]
      exact Nat.mul_div_cancel T (by omega)
  have hlen : (forecastHours T dt).length = T := by
    rw [forecastHours, arange, List.length_map, List.length_range, hcount]
  refine ⟨hlen, ?_, ?_⟩
  · intro i hi
    rw [forecastHours, arange, hcount, List.getElem?_map,
      List.getElem?_range hi]
    have hval : dt + dt * i = dt * (i + 1) := by ring
    simp [hval]
  · intro β forecast hf
    rw [add_metadata_to_forecast_cs, if_pos (by rw [hlen, hf])]
    exact ⟨_, rfl⟩

/-- Witness for C10 at `T = 3`, `dt = 6` (the notebook's time step). -/
theorem forecastHours_labels_witness :
    (forecastHours 3 6).length = 3 ∧
    (∀ i, i < 3 → (forecastHours 3 6)[i]? = some (6 * (i + 1))) ∧
    ∀ {β : Type} (forecast : List β), forecast.length = 3 →
      ∃ labelled,
        add_metadata_to_forecast_cs (forecastHours 3 6) forecast =
          .ok labelled :=
  forecastHours_labels 3 6 (by decide)

end DLWP
